import Mathlib

/-
  Verification development for the Lesscms app-vue core:
  the responsive settings resolver (src/composables/useScrollAnimation.ts,
  second unit: useResponsiveSettings and its standalone helpers) and the
  route pattern resolver (src/composables/useRoutes.ts).

  JavaScript runtime values are embedded as `JSVal`; objects are embedded
  as insertion-ordered association lists (`JSObj`), with `setKey` giving
  the JS property-assignment semantics (overwrite in place, append new)
  and `spreadObj`/`spreadInto` the object-spread semantics.
-/

namespace Lcms

inductive JSVal where
  | undefined
  | null
  | bool (b : Bool)
  | num (n : Int)
  | str (s : String)
  | obj (fields : List (String × JSVal))
deriving Repr

abbrev JSObj := List (String × JSVal)

/-- JS nullish test (`x == null`, i.e. `undefined` or `null`). -/
def isNullish : JSVal → Bool
  | .undefined => true
  | .null => true
  | _ => false

/-- JS truthiness. -/
def truthyJS : JSVal → Bool
  | .undefined => false
  | .null => false
  | .bool b => b
  | .num n => !(n == 0)
  | .str s => !(s == "")
  | .obj _ => true

/-- JS `a ?? b`. -/
def nullishOrElse (a b : JSVal) : JSVal := if isNullish a then b else a

/-- JS `a || b`. -/
def truthyOrElse (a b : JSVal) : JSVal := if truthyJS a then a else b

/-- Own-property read on an object embedding: first binding wins
(a well-formed JS object has unique keys). Absent keys read as `undefined`. -/
def getKey (fs : JSObj) (k : String) : JSVal :=
  match fs with
  | [] => .undefined
  | (k', v) :: rest => if k' = k then v else getKey rest k

/-- Own-property presence. -/
def hasKey (fs : JSObj) (k : String) : Bool :=
  match fs with
  | [] => false
  | (k', _) :: rest => if k' = k then true else hasKey rest k

/-- JS property assignment `o[k] = v`: overwrite in place, append when new. -/
def setKey (fs : JSObj) (k : String) (v : JSVal) : JSObj :=
  match fs with
  | [] => [(k, v)]
  | (k', v') :: rest => if k' = k then (k', v) :: rest else (k', v') :: setKey rest k v

/-- Property read on an arbitrary value: primitives have no own properties. -/
def getFieldJS (v : JSVal) (k : String) : JSVal :=
  match v with
  | .obj fs => getKey fs k
  | _ => .undefined

/-- JS optional-chained property read `v?.[k]`. -/
def optChain (v : JSVal) (k : String) : JSVal :=
  if isNullish v then .undefined else getFieldJS v k

/-- JS object spread `{...fs, ...o}` restricted to a second object. -/
def spreadObj (fs o : JSObj) : JSObj :=
  o.foldl (fun acc kv => setKey acc kv.1 kv.2) fs

/-- JS spread of an arbitrary value into an object literal: objects
contribute their fields, strings contribute index-keyed characters,
other primitives contribute nothing. -/
def spreadInto (fs : JSObj) (v : JSVal) : JSObj :=
  match v with
  | .obj o => spreadObj fs o
  | .str s => (s.data.enum).foldl
      (fun acc ic => setKey acc (toString ic.1) (.str (String.mk [ic.2]))) fs
  | _ => fs

inductive Breakpoint where
  | desktop
  | tablet
  | mobile
deriving DecidableEq, Repr

def bpKey : Breakpoint → String
  | .desktop => "desktop"
  | .tablet => "tablet"
  | .mobile => "mobile"

/-- `mergeSettingsForBreakpoint` from useScrollAnimation.ts (the composable's
`getMergedSettings` has the same body with the ambient breakpoint):
`if (!settings) return {}` ; desktop returns the input unchanged; otherwise
`{...settings, ...(settings.responsive?.[breakpoint] || {})}`. -/
def mergeSettingsForBreakpoint (settings : Option JSObj) (b : Breakpoint) : JSObj :=
  match settings with
  | none => []
  | some s =>
    if b = .desktop then s
    else spreadInto s (truthyOrElse (optChain (getKey s "responsive") (bpKey b)) (.obj []))

/-- `isHiddenForBreakpoint` from useScrollAnimation.ts (the composable's
`isHidden` has the same body): desktop reads `settings.hidden ?? false`;
tablet/mobile read `settings.responsive?.[breakpoint]?.hidden ?? false`
with no fallback to the desktop value. -/
def isHiddenForBreakpoint (settings : Option JSObj) (b : Breakpoint) : JSVal :=
  match settings with
  | none => .bool false
  | some s =>
    if b = .desktop then nullishOrElse (getKey s "hidden") (.bool false)
    else nullishOrElse (optChain (optChain (getKey s "responsive") (bpKey b)) "hidden") (.bool false)

/-- The argument type of `shouldStack` in useScrollAnimation.ts. -/
structure StackSettings where
  stackOnTablet : Option Bool
  stackOnMobile : Option Bool
deriving DecidableEq, Repr

/-- `shouldStack` from useScrollAnimation.ts, with the ambient breakpoint
made an explicit argument. -/
def shouldStack (settings : Option StackSettings) (b : Breakpoint) : Bool :=
  match settings with
  | none => b = .mobile
  | some s =>
    if b = .tablet then s.stackOnTablet.getD false
    else if b = .mobile then s.stackOnMobile.getD true
    else false

/-
  Route pattern resolver (src/composables/useRoutes.ts).

  URL patterns are strings containing `{name}` placeholder tokens, where a
  token is recognized by the regex `\{(\w+)\}` (one or more word characters
  between braces).  `scanToksF` tokenizes a pattern the way the regexes in
  `extractParams` and `patternToRegex` do: a left-to-right scan taking each
  leftmost non-overlapping `{word}` occurrence as a placeholder and every
  other character as a literal.

  The regex built by `patternToRegex` escapes every metacharacter of
  `[.*+?^$\x7b\x7d()|[\]\\]` EXCEPT the braces, which are deliberately left
  unescaped, and then rewrites each `\{(\w+)\}` token to `(?<name>[^/]+)`,
  anchoring both ends.  So for a pattern in the brace-safe class
  `PatternSafe` — the tokenization has no leftover literal brace, every
  placeholder name starts with a non-digit (hence is a valid group
  identifier, `\w` characters being identifier characters), and the names
  are distinct — the built regex is exactly an anchored concatenation of
  self-matching literal characters and `(?<name>[^/]+)` groups, and its JS
  matching semantics is the backtracking matcher `matchToksF` over the
  token list: a literal matches itself, a placeholder greedily matches one
  or more non-'/' characters, longest first.  Outside that class the model
  does not describe the code: a leftover brace run such as `{1,4}` stays
  unescaped and acts as a real regex quantifier, and a digit-initial
  (`{2}`) or duplicated placeholder name makes the RegExp constructor
  throw.  Theorems about the dynamic matching clauses therefore carry
  `PatternSafe` hypotheses for the pattern entries they traverse.
-/

/-- JS `\w` word character: `[A-Za-z0-9_]`. -/
def isWordChar (c : Char) : Bool := c.isAlpha || c.isDigit || c = '_'

inductive Tok where
  | lit (c : Char)
  | param (name : String)
deriving DecidableEq, Repr

/-- Tokenizer for `\{(\w+)\}` scanning, fuelled (any fuel at least the
length of the input gives the scan's value). -/
def scanToksF : Nat → List Char → List Tok
  | 0, _ => []
  | _ + 1, [] => []
  | f + 1, c :: rest =>
    if c = '{' then
      let w := rest.takeWhile isWordChar
      if w = [] then Tok.lit '{' :: scanToksF f rest
      else if (rest.drop w.length).head? = some '}' then
        Tok.param (String.mk w) :: scanToksF f (rest.drop w.length).tail
      else Tok.lit '{' :: scanToksF f rest
    else Tok.lit c :: scanToksF f rest

def scanToks (pattern : String) : List Tok := scanToksF pattern.data.length pattern.data

/-- The placeholder names of a token list, in order, duplicates kept. -/
def paramNames (ts : List Tok) : List String :=
  ts.filterMap fun t => match t with | .param n => some n | .lit _ => none

/-- `extractParams` from useRoutes.ts: `pattern.match(/\{(\w+)\}/g)`,
each match stripped of its braces. -/
def extractParams (pattern : String) : List String := paramNames (scanToks pattern)

/-- Rendering a token list back to the pattern text it was scanned from. -/
def stringOfToks (ts : List Tok) : List Char :=
  ts.flatMap fun t => match t with | .lit c => [c] | .param n => '{' :: n.data ++ ['}']

/-- A token list whose literal characters include no brace — i.e. a
pattern in which every brace belongs to a `{name}` placeholder. -/
def noLitBrace (ts : List Tok) : Bool :=
  ts.all fun t => match t with
    | .lit c => (c != '{') && (c != '}')
    | .param _ => true

/-- A word-character run that is a valid JS named-group identifier: it
must not start with a digit (all `\w` characters are identifier
characters otherwise). -/
def validGroupNameStart (n : String) : Bool :=
  match n.data with
  | [] => false
  | c :: _ => !c.isDigit

/-- The brace-safe pattern class on which the token matcher is a faithful
embedding of `patternToRegex` + `String.match`: no literal brace survives
outside the placeholders (otherwise it stays unescaped in the regex and a
run like `\x7b1,4\x7d` becomes a quantifier), every placeholder name is a
valid group identifier, and the names are distinct (otherwise the RegExp
constructor throws a SyntaxError). -/
def PatternSafe (pat : String) : Prop :=
  noLitBrace (scanToks pat) = true
  ∧ (∀ n ∈ extractParams pat, validGroupNameStart n = true)
  ∧ (extractParams pat).Nodup

instance (pat : String) : Decidable (PatternSafe pat) := by
  unfold PatternSafe
  infer_instance

/-- `PatternSafe` lifted over the nullable pattern field of a page. -/
def PatternSafeOpt : Option String → Prop
  | none => True
  | some pat => PatternSafe pat

instance (o : Option String) : Decidable (PatternSafeOpt o) := by
  cases o <;> (unfold PatternSafeOpt; infer_instance)

/-- The backtracking matcher embedding the anchored regex that
`patternToRegex` builds from a brace-safe pattern (see `PatternSafe`):
literals match themselves, `(?<name>[^/]+)` greedily matches a nonempty
run of non-'/' characters, longest first, and the whole input must be
consumed.  Returns the captured groups in group order.  Fuelled; any fuel
above `ts.length + xs.length` gives the matcher's value. -/
def matchToksF : Nat → List Tok → List Char → Option (List (String × String))
  | 0, _, _ => none
  | _ + 1, [], [] => some []
  | _ + 1, [], _ :: _ => none
  | _ + 1, Tok.lit _ :: _, [] => none
  | f + 1, Tok.lit c :: ts, x :: xs => if x = c then matchToksF f ts xs else none
  | f + 1, Tok.param n :: ts, xs =>
      let maxRun := (xs.takeWhile (fun c => c != '/')).length
      (List.range maxRun).findSome? fun i =>
        let k := maxRun - i
        (matchToksF f ts (xs.drop k)).map fun m => (n, String.mk (xs.take k)) :: m

def matchToks (ts : List Tok) (xs : List Char) : Option (List (String × String)) :=
  matchToksF (ts.length + xs.length + 1) ts xs

/-- Declarative semantics of the rule built by `patternToRegex` from a
brace-safe pattern (see `PatternSafe`), as the spec words it: the whole
path decomposes along the token list, each literal portion matching
itself and each `{name}` placeholder matching one or more characters
excluding '/'; the captures record each placeholder's matched segment.
(For a pattern outside the brace-safe class this is the claim-side
literal-text reading, not the code's regex.) -/
inductive TokMatch : List Tok → List Char → List (String × String) → Prop where
  | nil : TokMatch [] [] []
  | lit {c : Char} {ts : List Tok} {xs : List Char} {m : List (String × String)} :
      TokMatch ts xs m → TokMatch (Tok.lit c :: ts) (c :: xs) m
  | param {n : String} (v : List Char) {ts : List Tok} {xs : List Char}
      {m : List (String × String)} :
      v ≠ [] → (∀ c ∈ v, c ≠ '/') → TokMatch ts xs m →
      TokMatch (Tok.param n :: ts) (v ++ xs) ((n, String.mk v) :: m)

/-- ECMAScript `encodeURIComponent` unreserved characters. -/
def uriUnreserved (c : Char) : Bool :=
  c.isAlpha || c.isDigit || c == '-' || c == '_' || c == '.' || c == '!' ||
  c == '~' || c == '*' || c == '\'' || c == '(' || c == ')'

/-- Uppercase hexadecimal digit. -/
def hexDigit (n : Nat) : Char :=
  if n < 10 then Char.ofNat (48 + n) else Char.ofNat (55 + n)

/-- UTF-8 bytes of a code point. -/
def utf8Bytes (n : Nat) : List Nat :=
  if n < 128 then [n]
  else if n < 2048 then [192 + n / 64, 128 + n % 64]
  else if n < 65536 then [224 + n / 4096, 128 + (n / 64) % 64, 128 + n % 64]
  else [240 + n / 262144, 128 + (n / 4096) % 64, 128 + (n / 64) % 64, 128 + n % 64]

def encodeChar (c : Char) : List Char :=
  if uriUnreserved c then [c]
  else (utf8Bytes c.toNat).flatMap fun b => ['%', hexDigit (b / 16), hexDigit (b % 16)]

/-- `encodeURIComponent`: percent-encode every character outside the
unreserved set, byte by byte of its UTF-8 encoding. -/
def encodeURIComponent (s : String) : String := String.mk (s.data.flatMap encodeChar)

/-- JS `String.prototype.replace` with a plain string pattern and a
replacement free of `$` patterns: replace the first occurrence only;
no occurrence leaves the string unchanged. -/
def replaceFirst (s pat rep : List Char) : List Char :=
  match s with
  | [] => []
  | c :: rest =>
    if pat.isPrefixOf (c :: rest) then rep ++ (c :: rest).drop pat.length
    else c :: replaceFirst rest pat rep

def replaceFirstStr (s pat rep : String) : String :=
  String.mk (replaceFirst s.data pat.data rep.data)

/-- `String(value)` coercion for the embedded JS values. -/
def toStringJS : JSVal → String
  | .undefined => "undefined"
  | .null => "null"
  | .bool b => if b then "true" else "false"
  | .num n => toString n
  | .str s => s
  | .obj _ => "[object Object]"

/- Route table data model (src/api/client.ts). -/

structure Homepage where
  code : String
  url : String
  page_uuid : String
deriving DecidableEq, Repr

structure RoutePageItem where
  code : String
  url : Option String
  pattern : Option String
  page_uuid : String
deriving DecidableEq, Repr

structure RouteCollectionItem where
  code : String
  entry_url_pattern : Option String
  entry_url_field : Option String
deriving DecidableEq, Repr

structure ResolvedRoute where
  pageCode : String
  pageUuid : String
  params : List (String × String)
  isHomepage : Bool
deriving DecidableEq, Repr

/-- The resolver's reactive state in `useRoutes`. -/
structure RoutesState where
  homepage : Option Homepage
  pages : List RoutePageItem
  collections : List RouteCollectionItem
  isLoaded : Bool
  isLoading : Bool
  error : Option String
deriving Repr

/-- JS truthiness of a `string | null` pattern field: `null` and the empty
string are falsy. -/
def patTruthy : Option String → Bool
  | none => false
  | some s => !(s == "")

def normalizePath (path : String) : String :=
  match path.data with
  | '/' :: _ => path
  | _ => "/" ++ path

/-- One dynamic-page attempt inside `resolve`'s second loop: the page must
have a truthy `pattern`; the built regex is matched against the whole
normalized path; the result is kept only when `match.groups` is defined,
which requires the regex to contain at least one named group, i.e. the
pattern to contain at least one `{name}` placeholder.  The token matcher
embeds the built regex faithfully for brace-safe patterns only (see
`PatternSafe`): on a pattern with leftover literal braces the code's
regex may reinterpret them as quantifiers or fail to compile, which this
total function does not model — theorems about the dynamic clauses carry
`PatternSafeOpt` hypotheses for every pattern entry they traverse. -/
def pageDynMatch (p : RoutePageItem) (np : String) : Option (List (String × String)) :=
  match p.pattern with
  | none => none
  | some pat =>
    if pat = "" then none
    else
      let ts := scanToks pat
      if paramNames ts = [] then none else matchToks ts np.data

/-- The body of `resolve` after the homepage check: the static-page loop
(first entry with falsy `pattern` and `url` equal to the normalized path),
then the dynamic-page loop. -/
def resolveBody (st : RoutesState) (np : String) : Option ResolvedRoute :=
  match st.pages.find? (fun p => !patTruthy p.pattern && p.url == some np) with
  | some p => some ⟨p.code, p.page_uuid, [], false⟩
  | none =>
    st.pages.findSome? fun p =>
      (pageDynMatch p np).map fun m => ⟨p.code, p.page_uuid, m, false⟩

/-- `resolve` from useRoutes.ts: warn-and-null before the table is loaded;
normalize the path to start with '/'; homepage first (path `"/"` or the
homepage's url), then static pages, then dynamic pages (embedded by
`pageDynMatch`, whose fidelity scope is the brace-safe patterns), else
null. -/
def resolve (st : RoutesState) (path : String) : Option ResolvedRoute :=
  if st.isLoaded then
    let np := normalizePath path
    match st.homepage with
    | some hp =>
      if np = "/" ∨ np = hp.url then some ⟨hp.code, hp.page_uuid, [], true⟩
      else resolveBody st np
    | none => resolveBody st np
  else none

/-- The parameter-substitution loop of `buildUrl`: for each required
parameter in order, fail when it is missing (`undefined`/`null`) or the
empty string, otherwise replace the first occurrence of `{name}` with the
URL-encoded value. -/
def substLoop : List String → String → (String → Option String) → Option String
  | [], url, _ => some url
  | n :: rest, url, params =>
    match params n with
    | none => none
    | some v =>
      if v = "" then none
      else substLoop rest (replaceFirstStr url ("\x7b" ++ n ++ "\x7d") (encodeURIComponent v)) params

/-- `buildUrl` from useRoutes.ts: warn-and-null before the table is loaded;
`"/"` when the code is the homepage's; find the page by code (null when
absent); a falsy pattern returns the stored static url as-is; otherwise
substitute each extracted parameter into the pattern. -/
def buildUrl (st : RoutesState) (pageCode : String) (params : String → Option String) :
    Option String :=
  if st.isLoaded then
    if (match st.homepage with | some hp => hp.code == pageCode | none => false) then some "/"
    else
      match st.pages.find? (fun p => p.code == pageCode) with
      | none => none
      | some page =>
        if patTruthy page.pattern then
          let pat := page.pattern.getD ""
          substLoop (extractParams pat) pat params
        else page.url
  else none

/- buildEntryUrl -/

/-- The data payload of an entry passed to `buildEntryUrl`. -/
structure EntryArg where
  entry_id : Option String
  data : Option JSObj

def entryIdVal (entry : EntryArg) : JSVal :=
  match entry.entry_id with
  | some s => .str s
  | none => .undefined

/-- The multilingual pick `fieldValue[language] || fieldValue.pl ||
Object.values(fieldValue)[0] || ''` applied to an object value. -/
def mlChain (fv : JSVal) (language : String) : JSVal :=
  truthyOrElse (getFieldJS fv language)
    (truthyOrElse (getFieldJS fv "pl")
      (truthyOrElse (firstValue fv) (.str "")))
where
  firstValue : JSVal → JSVal
    | .obj [] => .undefined
    | .obj ((_, v) :: _) => v
    | _ => .undefined

/-- The `switch (param)` of `buildEntryUrl` resolving one placeholder name
to a value; `none` models `paramValues[param]` being left unset. -/
def resolveEntryParam (collection : RouteCollectionItem) (entry : EntryArg)
    (language : String) (param : String) : Option JSVal :=
  if param = "lang" then some (.str language)
  else if param = "slug" then
    match collection.entry_url_field, entry.data with
    | some field, some data =>
      if field = "" then some (truthyOrElse (entryIdVal entry) (.str ""))
      else
        match getKey data field with
        | .obj fs => some (mlChain (.obj fs) language)
        | fv => some (truthyOrElse fv (truthyOrElse (entryIdVal entry) (.str "")))
    | _, _ => some (truthyOrElse (entryIdVal entry) (.str ""))
  else if param = "entry_id" then some (truthyOrElse (entryIdVal entry) (.str ""))
  else
    match entry.data with
    | some data =>
      let v := getKey data param
      if truthyJS v then
        match v with
        | .obj fs => some (mlChain (.obj fs) language)
        | _ => some (.str (toStringJS v))
      else none
    | none => none

/-- The final loop of `buildEntryUrl`: abort with null on any falsy or
unset parameter value, else substitute its URL-encoded string coercion. -/
def entrySubstLoop : List String → String → (String → Option JSVal) → Option String
  | [], url, _ => some url
  | n :: rest, url, pv =>
    match pv n with
    | none => none
    | some v =>
      if truthyJS v then
        entrySubstLoop rest
          (replaceFirstStr url ("\x7b" ++ n ++ "\x7d") (encodeURIComponent (toStringJS v))) pv
      else none

/-- `buildEntryUrl` from useRoutes.ts. -/
def buildEntryUrl (st : RoutesState) (collectionCode : String) (entry : EntryArg)
    (language : String) : Option String :=
  if st.isLoaded then
    match st.collections.find? (fun c => c.code == collectionCode) with
    | none => none
    | some c =>
      match c.entry_url_pattern with
      | none => none
      | some pat =>
        if pat = "" then none
        else entrySubstLoop (extractParams pat) pat (resolveEntryParam c entry language)
  else none

/- load state machine -/

structure RoutesData where
  homepage : Option Homepage
  pages : List RoutePageItem
  collections : List RouteCollectionItem

/-- One call to `loadRoutes`, with the outcome of the awaited
`api.getRoutes()` passed explicitly: a call while already loaded or
loading returns at once; a successful fetch installs the table, clears
the error and sets `isLoaded`; a failed fetch records the error; the
`finally` block clears `isLoading` on both outcomes. -/
def loadStep (st : RoutesState) (result : Except String RoutesData) : RoutesState :=
  if st.isLoaded || st.isLoading then st
  else
    match result with
    | .ok d =>
      { st with homepage := d.homepage, pages := d.pages, collections := d.collections,
                isLoaded := true, isLoading := false, error := none }
    | .error e => { st with error := some e, isLoading := false }

/- Object-model lemmas -/

theorem getKey_setKey (fs : JSObj) (k k' : String) (v : JSVal) :
    getKey (setKey fs k v) k' = if k = k' then v else getKey fs k' := by
  induction fs with
  | nil => simp [setKey, getKey]
  | cons p rest ih =>
    obtain ⟨pk, pw⟩ := p
    by_cases h : pk = k
    · subst h
      simp only [setKey, if_pos rfl, getKey]
      by_cases h2 : pk = k' <;> simp [h2]
    · simp only [setKey, if_neg h, getKey]
      by_cases h2 : pk = k'
      · subst h2
        have : ¬ k = pk := fun hh => h hh.symm
        simp [this]
      · simp [h2, ih]

theorem hasKey_eq_false_of_not_mem {o : JSObj} {k : String}
    (h : k ∉ o.map Prod.fst) : hasKey o k = false := by
  induction o with
  | nil => rfl
  | cons p rest ih =>
    simp only [List.map_cons, List.mem_cons] at h
    push_neg at h
    simp only [hasKey]
    rw [if_neg (fun hh => h.1 hh.symm)]
    exact ih h.2

theorem getKey_spreadObj (o : JSObj) (hnd : (o.map Prod.fst).Nodup) :
    ∀ (fs : JSObj) (k : String),
      getKey (spreadObj fs o) k = if hasKey o k then getKey o k else getKey fs k := by
  induction o with
  | nil => intro fs k; simp [spreadObj, hasKey]
  | cons p rest ih =>
    intro fs k
    obtain ⟨pk, pw⟩ := p
    simp only [List.map_cons, List.nodup_cons] at hnd
    have step : spreadObj fs ((pk, pw) :: rest) = spreadObj (setKey fs pk pw) rest := rfl
    rw [step, ih hnd.2]
    by_cases h : pk = k
    · subst h
      have hrest : hasKey rest pk = false := hasKey_eq_false_of_not_mem hnd.1
      simp [hrest, hasKey, getKey, getKey_setKey]
    · simp only [hasKey, getKey, if_neg h]
      by_cases h2 : hasKey rest k = true
      · simp [h2]
      · simp only [Bool.not_eq_true] at h2
        simp [h2, getKey_setKey, h]

/-- The code's `|| {}` and the spec's `?? {}` give the same spread result:
the values on which they disagree (falsy non-nullish ones) all spread to
nothing. -/
theorem spreadInto_truthy_eq_nullish (s : JSObj) (v : JSVal) :
    spreadInto s (truthyOrElse v (.obj [])) = spreadInto s (nullishOrElse v (.obj [])) := by
  cases v with
  | undefined => rfl
  | null => rfl
  | bool b => cases b <;> rfl
  | num n =>
    by_cases h : n = 0
    · subst h; rfl
    · simp [truthyOrElse, nullishOrElse, truthyJS, isNullish, h]
  | str t =>
    by_cases h : t = ""
    · subst h; rfl
    · simp [truthyOrElse, nullishOrElse, truthyJS, isNullish, h]
  | obj o => rfl

/- takeWhile helpers for the matcher -/

theorem all_take_of_le_takeWhile {p : Char → Bool} {xs : List Char} {k : Nat}
    (hk : k ≤ (xs.takeWhile p).length) : ∀ c ∈ xs.take k, p c = true := by
  intro c hc
  have hsplit : xs.takeWhile p ++ xs.dropWhile p = xs := List.takeWhile_append_dropWhile p xs
  rw [← hsplit, List.take_append_of_le_length hk] at hc
  exact List.mem_takeWhile_imp (List.take_subset _ _ hc)

/- Matcher soundness and completeness -/

theorem matchToksF_sound :
    ∀ (f : Nat) (ts : List Tok) (xs : List Char) (m : List (String × String)),
      matchToksF f ts xs = some m → TokMatch ts xs m := by
  intro f
  induction f with
  | zero => intro ts xs m h; simp [matchToksF] at h
  | succ f ih =>
    intro ts xs m h
    match ts, xs with
    | [], [] =>
      simp only [matchToksF, Option.some.injEq] at h
      subst h
      exact TokMatch.nil
    | [], _ :: _ => simp [matchToksF] at h
    | Tok.lit c :: ts, [] => simp [matchToksF] at h
    | Tok.lit c :: ts, x :: xs =>
      simp only [matchToksF] at h
      by_cases hxc : x = c
      · rw [if_pos hxc] at h
        subst hxc
        exact TokMatch.lit (ih ts xs m h)
      · rw [if_neg hxc] at h; exact absurd h (by simp)
    | Tok.param n :: ts, xs =>
      simp only [matchToksF] at h
      obtain ⟨i, hi, hg⟩ := List.exists_of_findSome?_eq_some h
      have hilt : i < (xs.takeWhile (fun c => c != '/')).length := List.mem_range.mp hi
      set maxRun := (xs.takeWhile (fun c => c != '/')).length with hmax
      set k := maxRun - i with hkdef
      cases hmm : matchToksF f ts (xs.drop k) with
      | none => rw [hmm] at hg; simp at hg
      | some m' =>
        rw [hmm] at hg
        simp only [Option.map_some', Option.some.injEq] at hg
        have hder := ih ts (xs.drop k) m' hmm
        have hk1 : 1 ≤ k := by omega
        have hkle : k ≤ maxRun := by omega
        have hmaxle : maxRun ≤ xs.length := by
          rw [hmax]; exact (List.takeWhile_sublist _).length_le
        have htake : xs.take k ++ xs.drop k = xs := List.take_append_drop k xs
        have hne : xs.take k ≠ [] := by
          have hlen : (xs.take k).length = min k xs.length := List.length_take k xs
          intro hnil
          rw [hnil] at hlen
          simp only [List.length_nil] at hlen
          omega
        have hnoslash : ∀ c ∈ xs.take k, c ≠ '/' := by
          intro c hc
          have := all_take_of_le_takeWhile (p := fun c => c != '/') (by omega) c hc
          simpa using this
        subst hg
        have hres := @TokMatch.param n (xs.take k) ts (xs.drop k) m' hne hnoslash hder
        rw [htake] at hres
        exact hres

theorem matchToks_sound {ts : List Tok} {xs : List Char} {m : List (String × String)}
    (h : matchToks ts xs = some m) : TokMatch ts xs m :=
  matchToksF_sound _ _ _ _ h

theorem find?_first {α} (p : α → Bool) :
    ∀ (pre : List α) (a : α) (post : List α), p a = true → (∀ x ∈ pre, p x = false) →
      (pre ++ a :: post).find? p = some a := by
  intro pre a post ha hpre
  induction pre with
  | nil => simp [List.find?_cons, ha]
  | cons b rest ih =>
    have hb : p b = false := hpre b (by simp)
    simp only [List.cons_append, List.find?_cons, hb]
    exact ih (fun x hx => hpre x (by simp [hx]))

theorem findSome?_first {α β} (g : α → Option β) :
    ∀ (pre : List α) (a : α) (post : List α) (r : β), g a = some r →
      (∀ x ∈ pre, g x = none) → (pre ++ a :: post).findSome? g = some r := by
  intro pre a post r ha hpre
  induction pre with
  | nil => simp [List.findSome?_cons, ha]
  | cons b rest ih =>
    have hb : g b = none := hpre b (by simp)
    simp only [List.cons_append, List.findSome?_cons, hb]
    exact ih (fun x hx => hpre x (by simp [hx]))

theorem staticPred_iff (q : RoutePageItem) (np : String) :
    ((!patTruthy q.pattern && q.url == some np) = true) ↔
      (patTruthy q.pattern = false ∧ q.url = some np) := by
  simp [Bool.and_eq_true]

/-
  The resolution algorithm exactly as claim C1 words it, for comparison
  with `resolve`: identical homepage and static clauses, but clause (3)
  considers every entry with a (truthy) pattern, returning the first one
  whose anchored rule matches the whole normalized path — with no
  requirement that the pattern contain a placeholder.  Since the claim
  says the literal portions are regex-escaped, its rule treats every
  non-placeholder character, braces included, as literal text, which is
  exactly the token matcher.  The code differs twice over: its
  `match.groups` guard discards every match of a placeholder-free pattern,
  and it does not escape leftover braces at all.
-/

def pageDynMatchClaim (p : RoutePageItem) (np : String) : Option (List (String × String)) :=
  match p.pattern with
  | none => none
  | some pat => if pat = "" then none else matchToks (scanToks pat) np.data

def resolveBodyClaim (st : RoutesState) (np : String) : Option ResolvedRoute :=
  match st.pages.find? (fun p => !patTruthy p.pattern && p.url == some np) with
  | some p => some ⟨p.code, p.page_uuid, [], false⟩
  | none =>
    st.pages.findSome? fun p =>
      (pageDynMatchClaim p np).map fun m => ⟨p.code, p.page_uuid, m, false⟩

def resolveClaim (st : RoutesState) (path : String) : Option ResolvedRoute :=
  if st.isLoaded then
    let np := normalizePath path
    match st.homepage with
    | some hp =>
      if np = "/" ∨ np = hp.url then some ⟨hp.code, hp.page_uuid, [], true⟩
      else resolveBodyClaim st np
    | none => resolveBodyClaim st np
  else none

theorem resolve_homepage_hit (st : RoutesState) (path : String) (hld : st.isLoaded = true)
    (hp : Homepage) (hhp : st.homepage = some hp)
    (hcond : normalizePath path = "/" ∨ normalizePath path = hp.url) :
    resolve st path = some ⟨hp.code, hp.page_uuid, [], true⟩ := by
  simp [resolve, hld, hhp, hcond]

theorem resolve_eq_body (st : RoutesState) (path : String) (hld : st.isLoaded = true)
    (hm : ∀ hp, st.homepage = some hp →
      normalizePath path ≠ "/" ∧ normalizePath path ≠ hp.url) :
    resolve st path = resolveBody st (normalizePath path) := by
  cases hh : st.homepage with
  | none => simp [resolve, hld, hh]
  | some hp =>
    have hmiss := hm hp hh
    simp [resolve, hld, hh, hmiss.1, hmiss.2]

theorem find?_static_none (st : RoutesState) (np : String)
    (hstat : ∀ q ∈ st.pages, ¬ (patTruthy q.pattern = false ∧ q.url = some np)) :
    st.pages.find? (fun q => !patTruthy q.pattern && q.url == some np) = none := by
  refine List.find?_eq_none.mpr ?_
  intro q hq hqt
  exact hstat q hq ((staticPred_iff q np).mp hqt)

theorem resolveBody_dynamic_first (st : RoutesState) (np : String)
    (hstat : ∀ q ∈ st.pages, ¬ (patTruthy q.pattern = false ∧ q.url = some np))
    (pre : List RoutePageItem) (p : RoutePageItem) (post : List RoutePageItem)
    (hpages : st.pages = pre ++ p :: post)
    (hpre : ∀ q ∈ pre, pageDynMatch q np = none)
    (m : List (String × String)) (hpm : pageDynMatch p np = some m) :
    resolveBody st np = some ⟨p.code, p.page_uuid, m, false⟩ := by
  have hscan : st.pages.findSome?
      (fun q => (pageDynMatch q np).map fun mm => ResolvedRoute.mk q.code q.page_uuid mm false)
      = some ⟨p.code, p.page_uuid, m, false⟩ := by
    rw [hpages]
    refine findSome?_first _ pre p post _ ?_ ?_
    · rw [hpm]; rfl
    · intro q hq; rw [hpre q hq]; rfl
  simp [resolveBody, find?_static_none st np hstat, hscan]

theorem pageDynMatch_sound {p : RoutePageItem} {np : String} {m : List (String × String)}
    (hpm : pageDynMatch p np = some m) :
    TokMatch (scanToks (p.pattern.getD "")) np.data m := by
  revert hpm
  unfold pageDynMatch
  cases hpp : p.pattern with
  | none => intro hpm; exact absurd hpm (by simp)
  | some pat =>
    simp only [Option.getD_some]
    intro hpm
    by_cases hemp : pat = ""
    · rw [if_pos hemp] at hpm; exact absurd hpm (by simp)
    · rw [if_neg hemp] at hpm
      by_cases hpn : paramNames (scanToks pat) = []
      · rw [if_pos hpn] at hpm; exact absurd hpm (by simp)
      · rw [if_neg hpn] at hpm
        exact matchToks_sound hpm

/-- The route table of the spec's walkthrough scenario, loaded. -/
def tblScenario : RoutesState :=
  ⟨some ⟨"home", "/", "hu"⟩,
   [⟨"about", some "/about", none, "au"⟩,
    ⟨"blog-post", none, some "/blog/{slug}", "bu"⟩],
   [], true, false, none⟩

/-- Claim C2: at tablet/mobile the merged settings equal the shallow merge
`{...s, ...(s.responsive?.[b] ?? {})}` — key by key, an own key of the
override wins and every other key keeps its desktop value — and at desktop
the merge returns `s` itself. -/
theorem c2_getMergedSettings (s : JSObj) (b : Breakpoint) :
    mergeSettingsForBreakpoint (some s) .desktop = s
    ∧ (b ≠ .desktop →
        mergeSettingsForBreakpoint (some s) b
          = spreadInto s (nullishOrElse (optChain (getKey s "responsive") (bpKey b)) (.obj [])))
    ∧ (b ≠ .desktop → ∀ o : JSObj, (o.map Prod.fst).Nodup →
        nullishOrElse (optChain (getKey s "responsive") (bpKey b)) (.obj []) = .obj o →
        ∀ k, getKey (mergeSettingsForBreakpoint (some s) b) k
          = if hasKey o k then getKey o k else getKey s k) := by
  have hmerge : ∀ hb : b ≠ .desktop,
      mergeSettingsForBreakpoint (some s) b
        = spreadInto s (nullishOrElse (optChain (getKey s "responsive") (bpKey b)) (.obj [])) := by
    intro hb
    simp only [mergeSettingsForBreakpoint, if_neg hb]
    exact spreadInto_truthy_eq_nullish s _
  refine ⟨rfl, hmerge, ?_⟩
  intro hb o hnd ho k
  rw [hmerge hb, ho]
  exact getKey_spreadObj o hnd s k

/-- A settings object from the spec's scenario:
`{backgroundColor:"#fff", responsive:{mobile:{hidden:true}}}`. -/
def sScenario : JSObj :=
  [("backgroundColor", .str "#fff"),
   ("responsive", .obj [("mobile", .obj [("hidden", .bool true)])])]

/-- Closed witness for `c2_getMergedSettings` at the scenario object and
the mobile breakpoint: the override's `hidden` wins, `backgroundColor`
keeps its desktop value, and desktop returns the object unchanged. -/
theorem c2_getMergedSettings_witness :
    getKey (mergeSettingsForBreakpoint (some sScenario) .mobile) "hidden" = .bool true
    ∧ getKey (mergeSettingsForBreakpoint (some sScenario) .mobile) "backgroundColor"
        = .str "#fff"
    ∧ mergeSettingsForBreakpoint (some sScenario) .desktop = sScenario := by
  have h := (c2_getMergedSettings sScenario .mobile).2.2 (by decide)
    [("hidden", .bool true)] (by decide) rfl
  refine ⟨?_, ?_, (c2_getMergedSettings sScenario .mobile).1⟩
  · rw [h "hidden"]; rfl
  · rw [h "backgroundColor"]; rfl

/-- Claim C5: the hidden flag does not interfere across breakpoints — the
desktop value is `s.hidden ?? false` and is invariant under any
reassignment of the `responsive` key, while the mobile value is
`s.responsive?.mobile?.hidden ?? false` (no fallback to the desktop
`hidden`) and is invariant under any reassignment of the `hidden` key. -/
theorem c5_isHidden_noninterference (s : JSObj) :
    isHiddenForBreakpoint (some s) .desktop = nullishOrElse (getKey s "hidden") (.bool false)
    ∧ (∀ v, isHiddenForBreakpoint (some (setKey s "responsive" v)) .desktop
        = isHiddenForBreakpoint (some s) .desktop)
    ∧ isHiddenForBreakpoint (some s) .mobile
        = nullishOrElse (optChain (optChain (getKey s "responsive") "mobile") "hidden")
            (.bool false)
    ∧ (∀ v, isHiddenForBreakpoint (some (setKey s "hidden" v)) .mobile
        = isHiddenForBreakpoint (some s) .mobile) := by
  refine ⟨rfl, ?_, rfl, ?_⟩
  · intro v
    simp only [isHiddenForBreakpoint, if_pos rfl]
    rw [getKey_setKey, if_neg (by decide : ("responsive" : String) ≠ "hidden")]
    simp
  · intro v
    simp only [isHiddenForBreakpoint]
    rw [if_neg (by decide : Breakpoint.mobile ≠ Breakpoint.desktop),
      if_neg (by decide : Breakpoint.mobile ≠ Breakpoint.desktop),
      getKey_setKey, if_neg (by decide : ("hidden" : String) ≠ "responsive")]

/-- Claim C9: `shouldStack` without settings stacks exactly on mobile;
with settings, tablet follows `stackOnTablet ?? false`, mobile follows
`stackOnMobile ?? true`, and desktop never stacks. -/
theorem c9_shouldStack :
    (shouldStack none .mobile = true
      ∧ shouldStack none .desktop = false
      ∧ shouldStack none .tablet = false)
    ∧ (∀ s : StackSettings,
        shouldStack (some s) .tablet = s.stackOnTablet.getD false
        ∧ shouldStack (some s) .mobile = s.stackOnMobile.getD true
        ∧ shouldStack (some s) .desktop = false) :=
  ⟨⟨rfl, rfl, rfl⟩, fun _ => ⟨rfl, rfl, rfl⟩⟩

/-- An unloaded resolver state. -/
def stUnloaded : RoutesState := ⟨none, [], [], false, false, none⟩

/-- Claim C8: a `loadRoutes` call in the `loading` or `loaded` state is a
no-op on the state; a failing load records the error, never reaches
`loaded`, and clears `isLoading` so that a later call may retry (and a
retry with a successful fetch does load); before `loaded`, `resolve` and
`buildUrl` return null instead of raising. -/
theorem c8_load_state_machine (st : RoutesState) :
    (∀ r, st.isLoaded = true ∨ st.isLoading = true → loadStep st r = st)
    ∧ (st.isLoaded = false → st.isLoading = false → ∀ e,
        (loadStep st (.error e)).isLoaded = false
        ∧ (loadStep st (.error e)).error = some e
        ∧ (loadStep st (.error e)).isLoading = false
        ∧ ∀ d, (loadStep (loadStep st (.error e)) (.ok d)).isLoaded = true)
    ∧ (st.isLoaded = false → ∀ path code params,
        resolve st path = none ∧ buildUrl st code params = none) := by
  refine ⟨?_, ?_, ?_⟩
  · intro r h
    rcases h with h | h <;> simp [loadStep, h]
  · intro h1 h2 e
    refine ⟨by simp [loadStep, h1, h2], by simp [loadStep, h1, h2],
      by simp [loadStep, h1, h2], ?_⟩
    intro d
    simp [loadStep, h1, h2]
  · intro h path code params
    constructor <;> simp [resolve, buildUrl, h]

/-- Closed witness for `c8_load_state_machine` at the unloaded state: a
failed load records the error without loading, a retry succeeds, and the
not-ready calls return null. -/
theorem c8_load_state_machine_witness :
    (loadStep stUnloaded (.error "network down")).error = some "network down"
    ∧ (loadStep stUnloaded (.error "network down")).isLoaded = false
    ∧ (loadStep (loadStep stUnloaded (.error "network down")) (.ok ⟨none, [], []⟩)).isLoaded
        = true
    ∧ resolve stUnloaded "/a" = none
    ∧ buildUrl stUnloaded "c" (fun _ => none) = none := by
  have h := c8_load_state_machine stUnloaded
  have hfail := h.2.1 rfl rfl "network down"
  have hnull := h.2.2 rfl "/a" "c" (fun _ => none)
  exact ⟨hfail.2.1, hfail.1, hfail.2.2.2 ⟨none, [], []⟩, hnull.1, hnull.2⟩

/- Inversion lemmas for successful resolutions -/

theorem pageDynMatch_pattern {p : RoutePageItem} {np : String} {m : List (String × String)}
    (h : pageDynMatch p np = some m) : ∃ pat, p.pattern = some pat ∧ pat ≠ "" := by
  revert h
  unfold pageDynMatch
  cases hpp : p.pattern with
  | none => intro h; exact absurd h (by simp)
  | some pat =>
    dsimp only
    intro h
    by_cases hemp : pat = ""
    · rw [if_pos hemp] at h; exact absurd h (by simp)
    · exact ⟨pat, rfl, hemp⟩

theorem resolveBody_cases (st : RoutesState) (np : String) (r : ResolvedRoute)
    (h : resolveBody st np = some r) :
    r.isHomepage = false ∧
    ((∃ p ∈ st.pages, patTruthy p.pattern = false ∧ p.url = some np
        ∧ r = ⟨p.code, p.page_uuid, [], false⟩)
     ∨ (∃ p ∈ st.pages, ∃ pat, p.pattern = some pat ∧ r.pageCode = p.code
        ∧ r.pageUuid = p.page_uuid ∧ TokMatch (scanToks pat) np.data r.params)) := by
  revert h
  unfold resolveBody
  cases hfind : st.pages.find? (fun q => !patTruthy q.pattern && q.url == some np) with
  | some p =>
    intro h
    simp only [Option.some.injEq] at h
    subst h
    have hmem := List.mem_of_find?_eq_some hfind
    have hfs := List.find?_some hfind
    have hpred := (staticPred_iff p np).mp hfs
    exact ⟨rfl, Or.inl ⟨p, hmem, hpred.1, hpred.2, rfl⟩⟩
  | none =>
    intro h
    obtain ⟨p, hmem, hmap⟩ := List.exists_of_findSome?_eq_some h
    cases hdm : pageDynMatch p np with
    | none => rw [hdm] at hmap; exact absurd hmap (by simp)
    | some m =>
      rw [hdm] at hmap
      simp only [Option.map_some', Option.some.injEq] at hmap
      subst hmap
      obtain ⟨pat, hpat, -⟩ := pageDynMatch_pattern hdm
      have hsound := pageDynMatch_sound hdm
      rw [hpat, Option.getD_some] at hsound
      exact ⟨rfl, Or.inr ⟨p, hmem, pat, hpat, rfl, rfl, hsound⟩⟩

/-- Claim C4 (amended): on a table whose pattern entries are all
brace-safe (`PatternSafeOpt` — so the matcher embeds each built regex
faithfully), a successful `resolve` marks `isHomepage` exactly when the
homepage clause fired; a homepage match carries the homepage's code/uuid
and empty params; any other match is either a static match with empty
params or a dynamic match whose params are the raw captured path
segments — the declarative match `TokMatch` reassembles the path from the
literal characters and the captured values verbatim, with no URL
decoding. -/
theorem c4_resolved_route (st : RoutesState) (path : String) (r : ResolvedRoute)
    (_hsafe : ∀ q ∈ st.pages, PatternSafeOpt q.pattern)
    (h : resolve st path = some r) :
    (r.isHomepage = true ↔
      ∃ hp, st.homepage = some hp ∧
        (normalizePath path = "/" ∨ normalizePath path = hp.url))
    ∧ (r.isHomepage = true → r.params = [] ∧
        ∃ hp, st.homepage = some hp ∧ r.pageCode = hp.code ∧ r.pageUuid = hp.page_uuid)
    ∧ (r.isHomepage = false →
        (∃ p ∈ st.pages, patTruthy p.pattern = false
            ∧ p.url = some (normalizePath path)
            ∧ r = ⟨p.code, p.page_uuid, [], false⟩)
        ∨ (∃ p ∈ st.pages, ∃ pat, p.pattern = some pat ∧ r.pageCode = p.code
            ∧ r.pageUuid = p.page_uuid
            ∧ TokMatch (scanToks pat) (normalizePath path).data r.params)) := by
  cases hl : st.isLoaded with
  | false => rw [resolve, hl] at h; exact absurd h (by simp)
  | true =>
  cases hh : st.homepage with
  | some hp =>
    by_cases hcond : normalizePath path = "/" ∨ normalizePath path = hp.url
    · rw [resolve_homepage_hit st path hl hp hh hcond] at h
      simp only [Option.some.injEq] at h
      subst h
      refine ⟨⟨fun _ => ⟨hp, rfl, hcond⟩, fun _ => rfl⟩, fun _ => ⟨rfl, hp, rfl, rfl, rfl⟩, ?_⟩
      intro hfalse
      exact absurd hfalse (by simp)
    · push_neg at hcond
      have hm : ∀ hp', st.homepage = some hp' →
          normalizePath path ≠ "/" ∧ normalizePath path ≠ hp'.url := by
        intro hp' hh'
        rw [hh] at hh'
        injection hh' with he
        subst he
        exact hcond
      rw [resolve_eq_body st path hl hm] at h
      obtain ⟨hhf, hcases⟩ := resolveBody_cases st _ r h
      refine ⟨⟨fun ht => absurd ht (by rw [hhf]; simp), ?_⟩,
        fun ht => absurd ht (by rw [hhf]; simp), fun _ => hcases⟩
      rintro ⟨hp', hh', hcond'⟩
      injection hh' with he
      subst he
      rcases hcond' with hc | hc
      · exact absurd hc hcond.1
      · exact absurd hc hcond.2
  | none =>
    have hm : ∀ hp', st.homepage = some hp' →
        normalizePath path ≠ "/" ∧ normalizePath path ≠ hp'.url := by
      intro hp' hh'
      rw [hh] at hh'
      exact absurd hh' (by simp)
    rw [resolve_eq_body st path hl hm] at h
    obtain ⟨hhf, hcases⟩ := resolveBody_cases st _ r h
    refine ⟨⟨fun ht => absurd ht (by rw [hhf]; simp), ?_⟩,
      fun ht => absurd ht (by rw [hhf]; simp), fun _ => hcases⟩
    rintro ⟨hp', hh', -⟩
    exact absurd hh' (by simp)

/-- A loaded route table with a single dynamic `/blog/{slug}` page. -/
def tblSlug : RoutesState :=
  ⟨none, [⟨"c", none, some "/blog/{slug}", "u"⟩], [], true, false, none⟩

/-- Counterexample to claim C4 as stated: the captured segment
`hello%20world` is returned verbatim as the `slug` param — it is not the
URL-decoded `hello world` the claim promises. -/
theorem c4_counterexample :
    resolve tblSlug "/blog/hello%20world"
      = some ⟨"c", "u", [("slug", "hello%20world")], false⟩
    ∧ ("hello%20world" : String) ≠ "hello world" :=
  ⟨rfl, by decide⟩

/-- Closed witness for `c4_resolved_route`: the scenario table's homepage
match at `/` has empty params and the homepage flag characterization. -/
theorem c4_resolved_route_witness :
    (ResolvedRoute.mk "home" "hu" [] true).params = []
    ∧ ((ResolvedRoute.mk "home" "hu" [] true).isHomepage = true ↔
        ∃ hp, tblScenario.homepage = some hp ∧
          (normalizePath "/" = "/" ∨ normalizePath "/" = hp.url)) := by
  have h := c4_resolved_route tblScenario "/" ⟨"home", "hu", [], true⟩ (by decide) rfl
  exact ⟨(h.2.1 rfl).1, h.1⟩

/-- A loaded route table where an earlier static page owns the url that
the later dynamic `/blog/{slug}` page would produce. -/
def tblShadow : RoutesState :=
  ⟨none,
   [⟨"a", some "/blog/hello-world", none, "ua"⟩,
    ⟨"c", none, some "/blog/{slug}", "uc"⟩],
   [], true, false, none⟩

/-- Counterexample to claim C3 as stated: on `tblShadow` — a loaded table
containing a dynamic route with pattern `/blog/{slug}` and code `c` —
`buildUrl` produces `/blog/hello-world`, but `resolve` returns the earlier
static entry `a` with empty params, not code `c` with
`{slug: "hello-world"}`. -/
theorem c3_counterexample :
    buildUrl tblShadow "c" (fun n => if n = "slug" then some "hello-world" else none)
      = some "/blog/hello-world"
    ∧ resolve tblShadow "/blog/hello-world" = some ⟨"a", "ua", [], false⟩
    ∧ ("a" : String) ≠ "c" :=
  ⟨rfl, rfl, by decide⟩

/-- Claim C3 (amended): the round-trip
`resolve (buildUrl c {slug: "hello-world"})` returns code `c` with params
`{slug: "hello-world"}` provided the built url is not shadowed: `c` is not
the homepage's code, the first entry with code `c` is the dynamic
`/blog/{slug}` entry, the homepage's url is not `/blog/hello-world`, no
pattern-less entry has that url, and no earlier pattern entry — each of
them brace-safe (`PatternSafeOpt`), so that its built regex really is the
literal-text rule the matcher embeds — matches it. -/
theorem c3_roundtrip (st : RoutesState) (c : String) (hld : st.isLoaded = true)
    (pre post : List RoutePageItem) (pageC : RoutePageItem)
    (hpages : st.pages = pre ++ pageC :: post)
    (hcode : pageC.code = c) (hpat : pageC.pattern = some "/blog/{slug}")
    (hhp : ∀ hp, st.homepage = some hp → hp.code ≠ c ∧ hp.url ≠ "/blog/hello-world")
    (hprecode : ∀ q ∈ pre, q.code ≠ c)
    (hstatic : ∀ q ∈ st.pages, patTruthy q.pattern = false → q.url ≠ some "/blog/hello-world")
    (_hpresafe : ∀ q ∈ pre, PatternSafeOpt q.pattern)
    (hpredyn : ∀ q ∈ pre, pageDynMatch q "/blog/hello-world" = none) :
    buildUrl st c (fun n => if n = "slug" then some "hello-world" else none)
      = some "/blog/hello-world"
    ∧ resolve st "/blog/hello-world"
      = some ⟨c, pageC.page_uuid, [("slug", "hello-world")], false⟩ := by
  constructor
  · have hhpc : (match st.homepage with | some hp => hp.code == c | none => false) = false := by
      cases hh : st.homepage with
      | none => rfl
      | some hp => simpa using (hhp hp hh).1
    have hfind : st.pages.find? (fun p => p.code == c) = some pageC := by
      rw [hpages]
      refine find?_first _ pre pageC post (by simp [hcode]) ?_
      intro q hq
      simpa using hprecode q hq
    simp only [buildUrl, hld, if_true, hhpc, Bool.false_eq_true, if_false, hfind, hpat]
    rfl
  · have hnp : normalizePath "/blog/hello-world" = "/blog/hello-world" := rfl
    have hm : ∀ hp, st.homepage = some hp →
        normalizePath "/blog/hello-world" ≠ "/"
          ∧ normalizePath "/blog/hello-world" ≠ hp.url := by
      intro hp hh
      refine ⟨by decide, ?_⟩
      rw [hnp]
      exact fun hcontra => (hhp hp hh).2 hcontra.symm
    rw [resolve_eq_body st _ hld hm, hnp]
    have hstat' : ∀ q ∈ st.pages,
        ¬ (patTruthy q.pattern = false ∧ q.url = some "/blog/hello-world") := by
      intro q hq hcontra
      exact hstatic q hq hcontra.1 hcontra.2
    have hpm : pageDynMatch pageC "/blog/hello-world" = some [("slug", "hello-world")] := by
      unfold pageDynMatch
      rw [hpat]
      rfl
    have hbody := resolveBody_dynamic_first st "/blog/hello-world" hstat'
      pre pageC post hpages hpredyn _ hpm
    rw [hbody, hcode]

/-- Closed witness for `c3_roundtrip` at the scenario table. -/
theorem c3_roundtrip_witness :
    buildUrl tblScenario "blog-post" (fun n => if n = "slug" then some "hello-world" else none)
      = some "/blog/hello-world"
    ∧ resolve tblScenario "/blog/hello-world"
      = some ⟨"blog-post", "bu", [("slug", "hello-world")], false⟩ := by
  have h := c3_roundtrip tblScenario "blog-post" rfl
    [⟨"about", some "/about", none, "au"⟩] []
    ⟨"blog-post", none, some "/blog/{slug}", "bu"⟩ rfl rfl rfl
    (by intro hp hhp; injection hhp with he; subst he; exact ⟨by decide, by decide⟩)
    (by decide)
    (by decide)
    (by decide)
    (by intro q hq; simp only [List.mem_singleton] at hq; subst hq; rfl)
  exact h

/- Pattern text, tokenization, and substitution -/

theorem take_takeWhile_length {p : Char → Bool} (l : List Char) :
    l.take (l.takeWhile p).length = l.takeWhile p := by
  induction l with
  | nil => rfl
  | cons a l ih =>
    by_cases h : p a
    · simp [List.takeWhile_cons, h, ih]
    · simp [List.takeWhile_cons, h]

theorem stringOfToks_nil : stringOfToks [] = [] := rfl

theorem stringOfToks_cons_lit (c : Char) (ts : List Tok) :
    stringOfToks (Tok.lit c :: ts) = c :: stringOfToks ts := rfl

theorem stringOfToks_cons_param (n : String) (ts : List Tok) :
    stringOfToks (Tok.param n :: ts) = ('{' :: n.data ++ ['}']) ++ stringOfToks ts := rfl

/-- Tokenizing and rendering back gives the original pattern text. -/
theorem stringOfToks_scanToksF :
    ∀ (f : Nat) (cs : List Char), cs.length ≤ f → stringOfToks (scanToksF f cs) = cs := by
  intro f
  induction f with
  | zero =>
    intro cs hf
    match cs with
    | [] => rfl
  | succ f ih =>
    intro cs hf
    match cs with
    | [] => rfl
    | c :: rest =>
      simp only [List.length_cons] at hf
      by_cases hc : c = '{'
      · subst hc
        rw [scanToksF, if_pos rfl]
        by_cases hwe : rest.takeWhile isWordChar = []
        · rw [if_pos hwe, stringOfToks_cons_lit, ih rest (by omega)]
        · rw [if_neg hwe]
          by_cases hh : (rest.drop (rest.takeWhile isWordChar).length).head? = some '}'
          · rw [if_pos hh]
            cases hdd : rest.drop (rest.takeWhile isWordChar).length with
            | nil => rw [hdd] at hh; simp at hh
            | cons d t =>
              have hdch : d = '}' := by
                rw [hdd] at hh
                simpa using hh
              subst hdch
              have hrest : rest = rest.takeWhile isWordChar ++ '}' :: t := by
                conv_lhs =>
                  rw [← List.take_append_drop (rest.takeWhile isWordChar).length rest]
                rw [take_takeWhile_length rest, hdd]
              have hlen2 : t.length ≤ f := by
                have hlr := congrArg List.length hrest
                simp only [List.length_append, List.length_cons] at hlr
                omega
              simp only [List.tail_cons]
              rw [stringOfToks_cons_param, ih t hlen2]
              conv_rhs => rw [hrest]
              simp [List.append_assoc]
          · rw [if_neg hh, stringOfToks_cons_lit, ih rest (by omega)]
      · rw [scanToksF, if_neg hc, stringOfToks_cons_lit, ih rest (by omega)]

theorem stringOfToks_scanToks (pattern : String) :
    stringOfToks (scanToks pattern) = pattern.data :=
  stringOfToks_scanToksF _ _ (le_refl _)

/- replaceFirst lemmas -/

theorem isPrefixOf_append_self : ∀ (a b : List Char), a.isPrefixOf (a ++ b) = true := by
  intro a b
  induction a with
  | nil => simp [List.isPrefixOf]
  | cons c l ih => simp [List.cons_append, List.isPrefixOf_cons₂, ih]

theorem isPrefixOf_brace_cons (pt s : List Char) {c : Char} (hc : c ≠ '{') :
    ('{' :: pt).isPrefixOf (c :: s) = false := by
  rw [List.isPrefixOf_cons₂,
    show (('{' == c) = false) from beq_eq_false_iff_ne.mpr (fun h => hc h.symm)]
  rfl

theorem replaceFirst_hit (pat t rep : List Char) (hne : pat ≠ []) :
    replaceFirst (pat ++ t) pat rep = rep ++ t := by
  match pat, hne with
  | p0 :: pt, _ =>
    have hpre := isPrefixOf_append_self (p0 :: pt) t
    rw [List.cons_append] at hpre
    show replaceFirst (p0 :: (pt ++ t)) (p0 :: pt) rep = rep ++ t
    rw [replaceFirst, if_pos hpre]
    simp [List.length_cons, List.drop_succ_cons, List.drop_left]

theorem replaceFirst_cons_skip {pat : List Char} {c : Char} (s rep : List Char)
    (h : pat.isPrefixOf (c :: s) = false) :
    replaceFirst (c :: s) pat rep = c :: replaceFirst s pat rep := by
  rw [replaceFirst, h]
  simp

theorem replaceFirst_append_skip (pre : List Char) (s : List Char) (pt rep : List Char)
    (hpre : ∀ c ∈ pre, c ≠ '{') :
    replaceFirst (pre ++ s) ('{' :: pt) rep = pre ++ replaceFirst s ('{' :: pt) rep := by
  induction pre with
  | nil => rfl
  | cons c l ih =>
    have hc : c ≠ '{' := hpre c (by simp)
    rw [List.cons_append,
      replaceFirst_cons_skip _ rep (isPrefixOf_brace_cons pt (l ++ s) hc),
      ih (fun d hd => hpre d (by simp [hd]))]
    rfl

/- The pure substitution fold performed by buildUrl / buildEntryUrl
once every required parameter is known to be present. -/

def substFold (names : List String) (url : List Char) (rep : String → List Char) : List Char :=
  names.foldl (fun u n => replaceFirst u ('{' :: n.data ++ ['}']) (rep n)) url

/-- The substitution as the spec words it: the pattern with each `{name}`
placeholder replaced by its value, every other character kept. -/
def specSubst (ts : List Tok) (rep : String → List Char) : List Char :=
  ts.flatMap fun t => match t with | .lit c => [c] | .param n => rep n

theorem noLitBrace_cons_lit {c : Char} {ts : List Tok}
    (h : noLitBrace (Tok.lit c :: ts) = true) :
    (c ≠ '{' ∧ c ≠ '}') ∧ noLitBrace ts = true := by
  simp only [noLitBrace, List.all_cons, Bool.and_eq_true, bne_iff_ne] at h
  exact ⟨h.1, h.2⟩

theorem noLitBrace_cons_param {n : String} {ts : List Tok}
    (h : noLitBrace (Tok.param n :: ts) = true) : noLitBrace ts = true := by
  simp only [noLitBrace, List.all_cons, Bool.and_eq_true] at h
  exact h.2

theorem substFold_append_skip (names : List String) :
    ∀ (pre s : List Char) (rep : String → List Char), (∀ c ∈ pre, c ≠ '{') →
      substFold names (pre ++ s) rep = pre ++ substFold names s rep := by
  induction names with
  | nil => intro pre s rep _; rfl
  | cons n rest ih =>
    intro pre s rep hpre
    show substFold rest (replaceFirst (pre ++ s) ('{' :: n.data ++ ['}']) (rep n)) rep
      = pre ++ substFold rest (replaceFirst s ('{' :: n.data ++ ['}']) (rep n)) rep
    rw [show ('{' :: n.data ++ ['}'] : List Char) = '{' :: (n.data ++ ['}']) by simp,
      replaceFirst_append_skip pre s _ _ hpre]
    exact ih pre _ rep hpre

/-- On a pattern whose braces all belong to placeholders, the left-to-right
first-occurrence replacement loop computes exactly the token-wise
substitution, whenever no replacement value contains a brace. -/
theorem substFold_eq_specSubst :
    ∀ (ts : List Tok) (rep : String → List Char), noLitBrace ts = true →
      (∀ n ∈ paramNames ts, ∀ c ∈ rep n, c ≠ '{' ∧ c ≠ '}') →
      substFold (paramNames ts) (stringOfToks ts) rep = specSubst ts rep := by
  intro ts
  induction ts with
  | nil => intro rep _ _; rfl
  | cons t ts ih =>
    intro rep hnb hrep
    match t with
    | Tok.lit c =>
      obtain ⟨⟨hc1, _⟩, hnb'⟩ := noLitBrace_cons_lit hnb
      have hnames : paramNames (Tok.lit c :: ts) = paramNames ts := rfl
      rw [hnames, stringOfToks_cons_lit,
        show (c :: stringOfToks ts : List Char) = [c] ++ stringOfToks ts by rfl,
        substFold_append_skip _ [c] _ rep (by simpa using hc1), ih rep hnb' hrep]
      rfl
    | Tok.param n =>
      have hnames : paramNames (Tok.param n :: ts) = n :: paramNames ts := rfl
      have hrepn : ∀ c ∈ rep n, c ≠ '{' := by
        intro c hc
        exact (hrep n (by rw [hnames]; simp) c hc).1
      rw [hnames, stringOfToks_cons_param]
      show substFold (paramNames ts)
          (replaceFirst (('{' :: n.data ++ ['}']) ++ stringOfToks ts)
            ('{' :: n.data ++ ['}']) (rep n)) rep
        = specSubst (Tok.param n :: ts) rep
      rw [replaceFirst_hit _ _ _ (by simp),
        substFold_append_skip _ (rep n) _ rep hrepn,
        ih rep (noLitBrace_cons_param hnb) (fun nn hnn => hrep nn (by rw [hnames]; simp [hnn]))]
      rfl

/- encodeURIComponent facts -/

theorem utf8Bytes_lt_256 (c : Char) : ∀ b ∈ utf8Bytes c.toNat, b < 256 := by
  have hv : c.toNat < 1114112 := by
    rcases c.valid with h | ⟨-, h2⟩
    · exact Nat.lt_trans h (by omega)
    · exact h2
  intro b hb
  unfold utf8Bytes at hb
  split at hb
  · simp only [List.mem_singleton] at hb
    omega
  · split at hb
    · simp only [List.mem_cons, List.not_mem_nil, or_false] at hb
      rcases hb with rfl | rfl
      · omega
      · omega
    · split at hb
      · simp only [List.mem_cons, List.not_mem_nil, or_false] at hb
        rcases hb with rfl | rfl | rfl
        · omega
        · omega
        · omega
      · simp only [List.mem_cons, List.not_mem_nil, or_false] at hb
        rcases hb with rfl | rfl | rfl | rfl
        · omega
        · omega
        · omega
        · omega

theorem hexDigit_ne_brace {n : Nat} (h : n < 16) :
    hexDigit n ≠ '{' ∧ hexDigit n ≠ '}' := by
  interval_cases n <;> exact ⟨by decide, by decide⟩

theorem encodeURIComponent_no_brace (v : String) :
    ∀ c ∈ (encodeURIComponent v).data, c ≠ '{' ∧ c ≠ '}' := by
  intro c hc
  have hmem : c ∈ v.data.flatMap encodeChar := hc
  rw [List.mem_flatMap] at hmem
  obtain ⟨a, -, hca⟩ := hmem
  unfold encodeChar at hca
  split at hca
  case isTrue hres =>
    simp only [List.mem_singleton] at hca
    subst hca
    constructor <;> (intro hbr; subst hbr; exact absurd hres (by decide))
  case isFalse =>
    rw [List.mem_flatMap] at hca
    obtain ⟨b, hb, hcb⟩ := hca
    have hb256 := utf8Bytes_lt_256 a b hb
    simp only [List.mem_cons, List.not_mem_nil, or_false] at hcb
    rcases hcb with rfl | rfl | rfl
    · exact ⟨by decide, by decide⟩
    · exact hexDigit_ne_brace (by omega)
    · exact hexDigit_ne_brace (by omega)

theorem bracePat_data (n : String) : ("\x7b" ++ n ++ "\x7d").data = '{' :: n.data ++ ['}'] := by
  simp [String.data_append]

/-- When every required parameter is present and nonempty, the
`buildUrl` substitution loop computes the pure replacement fold. -/
theorem substLoop_ok (names : List String) :
    ∀ (url : String) (params : String → Option String),
      (∀ n ∈ names, ∃ v, params n = some v ∧ v ≠ "") →
      substLoop names url params
        = some (String.mk (substFold names url.data
            (fun n => (encodeURIComponent ((params n).getD "")).data))) := by
  induction names with
  | nil => intro url params _; rfl
  | cons n rest ih =>
    intro url params hall
    obtain ⟨v, hv, hvne⟩ := hall n (by simp)
    rw [substLoop, hv]
    simp only []
    rw [if_neg hvne, ih _ params (fun m hm => hall m (by simp [hm]))]
    congr 2
    show substFold rest (replaceFirstStr url ("\x7b" ++ n ++ "\x7d") (encodeURIComponent v)).data _
      = substFold rest (replaceFirst url.data ('{' :: n.data ++ ['}'])
          (encodeURIComponent ((params n).getD "")).data) _
    rw [hv]
    show substFold rest
        (replaceFirst url.data ("\x7b" ++ n ++ "\x7d").data (encodeURIComponent v).data) _
      = _
    rw [bracePat_data]
    rfl

/-- A missing or empty required parameter makes the `buildUrl`
substitution loop fail. -/
theorem substLoop_fail (names : List String) :
    ∀ (url : String) (params : String → Option String),
      (∃ n ∈ names, params n = none ∨ params n = some "") →
      substLoop names url params = none := by
  induction names with
  | nil =>
    intro url params h
    obtain ⟨n, hn, -⟩ := h
    exact absurd hn (by simp)
  | cons n rest ih =>
    intro url params h
    obtain ⟨n', hn', hbad⟩ := h
    rw [substLoop]
    cases hv : params n with
    | none => rfl
    | some v =>
      simp only []
      by_cases hve : v = ""
      · rw [if_pos hve]
      · rw [if_neg hve]
        apply ih
        rcases List.mem_cons.mp hn' with rfl | hmem
        · rcases hbad with hbad | hbad
          · rw [hv] at hbad; exact absurd hbad (by simp)
          · rw [hv] at hbad
            injection hbad with he
            exact absurd he hve
        · exact ⟨n', hmem, hbad⟩

/-- Claim C6 (amended): `buildUrl` returns `/` for the homepage's code;
otherwise it looks the page up by code; a falsy pattern returns the stored
static url; any missing or empty required parameter yields null; and when
all parameters are present and the pattern's braces all belong to
placeholders, the result is the pattern with each `{name}` placeholder
replaced by the URL-encoded parameter value.  (The brace proviso is
needed: the sequential first-occurrence replacement loop can splice a
value into literal braces and then divert a later replacement, see
`c6_counterexample`.) -/
theorem c6_buildUrl (st : RoutesState) (code : String) (params : String → Option String)
    (hld : st.isLoaded = true) :
    (∀ hp, st.homepage = some hp → hp.code = code → buildUrl st code params = some "/")
    ∧ ((∀ hp, st.homepage = some hp → hp.code ≠ code) →
        ∀ page, st.pages.find? (fun p => p.code == code) = some page →
          (patTruthy page.pattern = false → buildUrl st code params = page.url)
          ∧ (∀ pat, page.pattern = some pat → pat ≠ "" →
              ((∃ n ∈ extractParams pat, params n = none ∨ params n = some "") →
                buildUrl st code params = none)
              ∧ (noLitBrace (scanToks pat) = true →
                  (∀ n ∈ extractParams pat, ∃ v, params n = some v ∧ v ≠ "") →
                  buildUrl st code params
                    = some (String.mk (specSubst (scanToks pat)
                        (fun n => (encodeURIComponent ((params n).getD "")).data)))))) := by
  constructor
  · intro hp hhp hcode
    have hcond : (match st.homepage with | some hp => hp.code == code | none => false) = true := by
      rw [hhp]
      simp [hcode]
    simp [buildUrl, hld, hcond]
  · intro hmiss page hfind
    have hcond : (match st.homepage with | some hp => hp.code == code | none => false) = false := by
      cases hh : st.homepage with
      | none => rfl
      | some hp => simpa using hmiss hp hh
    have hbase : buildUrl st code params
        = (if patTruthy page.pattern then
            substLoop (extractParams (page.pattern.getD "")) (page.pattern.getD "") params
          else page.url) := by
      simp [buildUrl, hld, hcond, hfind]
    constructor
    · intro hpf
      rw [hbase, if_neg (by simp [hpf])]
    · intro pat hpat hpne
      have htr : patTruthy page.pattern = true := by simp [hpat, patTruthy, hpne]
      rw [hbase, if_pos htr, hpat, Option.getD_some]
      constructor
      · intro hex
        exact substLoop_fail (extractParams pat) pat params hex
      · intro hnb hall
        rw [substLoop_ok (extractParams pat) pat params hall]
        congr 2
        have hrender : stringOfToks (scanToks pat) = pat.data := stringOfToks_scanToks pat
        calc substFold (extractParams pat) pat.data
              (fun n => (encodeURIComponent ((params n).getD "")).data)
            = substFold (paramNames (scanToks pat)) (stringOfToks (scanToks pat))
                (fun n => (encodeURIComponent ((params n).getD "")).data) := by
              rw [hrender]; rfl
          _ = specSubst (scanToks pat)
                (fun n => (encodeURIComponent ((params n).getD "")).data) := by
              refine substFold_eq_specSubst (scanToks pat) _ hnb ?_
              intro n _ c hc
              exact encodeURIComponent_no_brace _ c hc

/-- A loaded route table whose single page has a pattern with literal
braces around an inner placeholder followed by a second placeholder. -/
def tblBraces : RoutesState :=
  ⟨none, [⟨"c", none, some "{ab{ab}}{abc}", "u"⟩], [], true, false, none⟩

def paramsBraces : String → Option String :=
  fun n => if n = "ab" then some "c" else if n = "abc" then some "X" else none

/-- Counterexample to claim C6 as stated: on the pattern `{ab{ab}}{abc}`
with `ab := "c"` and `abc := "X"`, replacing `{ab}` first turns the text
into `{abc}{abc}`, so the later `{abc}` replacement hits the glued-together
first occurrence and the real placeholder is left untouched: the code
returns `X{abc}`, not the placeholder-wise substitution `{abc}X`. -/
theorem c6_counterexample :
    buildUrl tblBraces "c" paramsBraces = some "X{abc}"
    ∧ String.mk (specSubst (scanToks "{ab{ab}}{abc}")
        (fun n => (encodeURIComponent ((paramsBraces n).getD "")).data)) = "{abc}X"
    ∧ ("X{abc}" : String) ≠ "{abc}X" :=
  ⟨rfl, rfl, by decide⟩

/-- Closed witness for `c6_buildUrl`: building the scenario blog-post url. -/
theorem c6_buildUrl_witness :
    buildUrl tblScenario "blog-post"
      (fun n => if n = "slug" then some "hello-world" else none)
      = some "/blog/hello-world" := by
  have h := (c6_buildUrl tblScenario "blog-post"
    (fun n => if n = "slug" then some "hello-world" else none) rfl).2
    (by intro hp hhp; injection hhp with he; subst he; decide)
    ⟨"blog-post", none, some "/blog/{slug}", "bu"⟩ rfl
  have hok := (h.2 "/blog/{slug}" rfl (by decide)).2 (by decide) ?_
  · exact hok.trans (by rfl)
  · intro n hn
    have hn' : n ∈ ["slug"] := hn
    rw [List.mem_singleton] at hn'
    subst hn'
    exact ⟨"hello-world", rfl, by decide⟩

/- extractParams soundness -/

theorem scanToksF_params_sound :
    ∀ (f : Nat) (cs : List Char) (n : String), Tok.param n ∈ scanToksF f cs →
      n.data ≠ [] ∧ ∀ c ∈ n.data, isWordChar c = true := by
  intro f
  induction f with
  | zero => intro cs n h; simp [scanToksF] at h
  | succ f ih =>
    intro cs n h
    match cs with
    | [] => simp [scanToksF] at h
    | c :: rest =>
      rw [scanToksF] at h
      by_cases hc : c = '{'
      · rw [if_pos hc] at h
        by_cases hwe : rest.takeWhile isWordChar = []
        · rw [if_pos hwe] at h
          simp only [List.mem_cons] at h
          rcases h with h | h
          · exact absurd h (by simp)
          · exact ih rest n h
        · rw [if_neg hwe] at h
          by_cases hh : (rest.drop (rest.takeWhile isWordChar).length).head? = some '}'
          · rw [if_pos hh] at h
            simp only [List.mem_cons] at h
            rcases h with h | h
            · have he : n = String.mk (rest.takeWhile isWordChar) := by
                simpa using h
              subst he
              refine ⟨by simpa using hwe, ?_⟩
              intro ch hch
              exact List.mem_takeWhile_imp hch
            · exact ih _ n h
          · rw [if_neg hh] at h
            simp only [List.mem_cons] at h
            rcases h with h | h
            · exact absurd h (by simp)
            · exact ih rest n h
      · rw [if_neg hc] at h
        simp only [List.mem_cons] at h
        rcases h with h | h
        · exact absurd h (by simp)
        · exact ih rest n h

/-- A loaded route table whose single page's pattern has only the
non-word brace token `{slug-id}`. -/
def tblDash : RoutesState :=
  ⟨none, [⟨"c", none, some "/x/{slug-id}", "u"⟩], [], true, false, none⟩

/-- Like `tblDash` but with an additional word placeholder `{a}`. -/
def tblDashParam : RoutesState :=
  ⟨none, [⟨"d", none, some "/x/{slug-id}/{a}", "ud"⟩], [], true, false, none⟩

/-- Claim C10 (amended): a brace token is a parameter placeholder only
when its content is one or more word characters — every name
`extractParams` returns is a nonempty word-character string, names come in
left-to-right order with duplicates preserved, and a brace token with any
other character (such as `{slug-id}`) is not extracted as a parameter, so
`buildUrl` leaves it unsubstituted in the output.  No general literal-text
guarantee holds for `resolve`: the non-word token survives unescaped into
the built regex, where a digit run like `\x7b1,4\x7d` acts as a real
quantifier.  The concrete conjuncts cover a token (`{slug-id}`) that
cannot form a quantifier, so the code's regex does treat it literally:
alongside a word placeholder the literal path matches with the word
capture, while a pattern with no word placeholder at all is skipped
entirely by the `match.groups` guard (see `c10_counterexample`). -/
theorem c10_extractParams :
    (∀ (p : String), ∀ n ∈ extractParams p,
        n.data ≠ [] ∧ ∀ c ∈ n.data, isWordChar c = true)
    ∧ extractParams "/a/{x}/{y}/{x}" = ["x", "y", "x"]
    ∧ extractParams "/x/{slug-id}" = []
    ∧ buildUrl tblDash "c" (fun _ => none) = some "/x/{slug-id}"
    ∧ resolve tblDashParam "/x/{slug-id}/v" = some ⟨"d", "ud", [("a", "v")], false⟩
    ∧ resolve tblDash "/x/{slug-id}" = none := by
  refine ⟨?_, rfl, rfl, rfl, rfl, rfl⟩
  intro p n hn
  have hmem : Tok.param n ∈ scanToks p := by
    have hn' : n ∈ (scanToks p).filterMap
        (fun t => match t with | Tok.param m => some m | Tok.lit _ => none) := hn
    rw [List.mem_filterMap] at hn'
    obtain ⟨t, ht, hmap⟩ := hn'
    match t with
    | Tok.lit c => exact absurd hmap (by simp)
    | Tok.param m =>
      have he : m = n := by simpa using hmap
      subst he
      exact ht
  exact scanToksF_params_sound _ _ n hmem

/-- Closed witness for `c10_extractParams` at `/blog/{slug}`. -/
theorem c10_extractParams_witness :
    ("slug" : String).data ≠ [] ∧ ∀ c ∈ ("slug" : String).data, isWordChar c = true :=
  c10_extractParams.1 "/blog/{slug}" "slug" (by decide)

/-- Counterexample to claim C10 as stated: a pattern whose only brace
token is the non-word `{slug-id}` is not matched as literal text by
`resolve` — the entry is skipped outright (no named group, so
`match.groups` is undefined), while the literal-text reading
(`resolveClaim`) would return it on the exact literal path. -/
theorem c10_counterexample :
    resolve tblDash "/x/{slug-id}" = none
    ∧ resolveClaim tblDash "/x/{slug-id}" = some ⟨"c", "u", [], false⟩ :=
  ⟨rfl, rfl⟩

/- buildEntryUrl -/

/-- Truthiness of one resolved placeholder slot: unset (`undefined`) and
falsy values both fail the final check of `buildEntryUrl`. -/
def paramTruthyB (o : Option JSVal) : Bool :=
  match o with
  | none => false
  | some v => truthyJS v

theorem entrySubstLoop_ok (names : List String) :
    ∀ (url : String) (pv : String → Option JSVal),
      (∀ n ∈ names, paramTruthyB (pv n) = true) →
      entrySubstLoop names url pv
        = some (String.mk (substFold names url.data
            (fun n => (encodeURIComponent (toStringJS ((pv n).getD .undefined))).data))) := by
  induction names with
  | nil => intro url pv _; rfl
  | cons n rest ih =>
    intro url pv hall
    have hn := hall n (by simp)
    cases hv : pv n with
    | none => rw [hv] at hn; exact absurd hn (by simp [paramTruthyB])
    | some v =>
      rw [hv] at hn
      have htr : truthyJS v = true := hn
      rw [entrySubstLoop, hv]
      simp only []
      rw [if_pos htr, ih _ pv (fun m hm => hall m (by simp [hm]))]
      congr 2
      show substFold rest
          (replaceFirst url.data ("\x7b" ++ n ++ "\x7d").data (encodeURIComponent (toStringJS v)).data) _
        = substFold rest (replaceFirst url.data ('{' :: n.data ++ ['}'])
            (encodeURIComponent (toStringJS ((pv n).getD .undefined))).data) _
      rw [hv, bracePat_data]
      rfl

theorem entrySubstLoop_fail (names : List String) :
    ∀ (url : String) (pv : String → Option JSVal),
      (∃ n ∈ names, paramTruthyB (pv n) = false) →
      entrySubstLoop names url pv = none := by
  induction names with
  | nil =>
    intro url pv h
    obtain ⟨n, hn, -⟩ := h
    exact absurd hn (by simp)
  | cons n rest ih =>
    intro url pv h
    obtain ⟨n', hn', hbad⟩ := h
    rw [entrySubstLoop]
    cases hv : pv n with
    | none => rfl
    | some v =>
      simp only []
      by_cases htr : truthyJS v = true
      · rw [if_pos htr]
        apply ih
        rcases List.mem_cons.mp hn' with rfl | hmem
        · rw [hv] at hbad
          simp only [paramTruthyB] at hbad
          rw [hbad] at htr
          exact absurd htr (by simp)
        · exact ⟨n', hmem, hbad⟩
      · rw [if_neg htr]

/-- Claim C7 (amended): on a loaded table, `buildEntryUrl` returns null
unless the collection exists and has an entry url pattern; each placeholder
resolves as follows — `lang` to the passed language; `slug` to the
configured `entry_url_field` on the entry's data through the falsy-skipping
multilingual chain exact language key, then the default key `pl`, then the
first available value, falling back to the entry's identifier when the
field is not configured, the data is absent, or the value is a falsy
non-object; `entry_id` to the identifier; any other name to the truthy
field of that name on the entry's data (same multilingual chain for
language-keyed mappings), unresolved otherwise — and the call returns null
exactly when some placeholder's resolved value is falsy or unresolved,
otherwise (for a pattern whose braces all belong to placeholders) the
pattern with each placeholder replaced by the URL-encoded value. -/
theorem c7_buildEntryUrl (st : RoutesState) (cc : String) (entry : EntryArg)
    (lang : String) (hld : st.isLoaded = true) :
    (st.collections.find? (fun c => c.code == cc) = none →
      buildEntryUrl st cc entry lang = none)
    ∧ (∀ c, st.collections.find? (fun c => c.code == cc) = some c →
        (c.entry_url_pattern = none → buildEntryUrl st cc entry lang = none)
        ∧ (∀ pat, c.entry_url_pattern = some pat → pat ≠ "" →
            (buildEntryUrl st cc entry lang = none ↔
              ∃ n ∈ extractParams pat,
                paramTruthyB (resolveEntryParam c entry lang n) = false)
            ∧ (noLitBrace (scanToks pat) = true →
                (∀ n ∈ extractParams pat,
                  paramTruthyB (resolveEntryParam c entry lang n) = true) →
                buildEntryUrl st cc entry lang
                  = some (String.mk (specSubst (scanToks pat)
                      (fun n => (encodeURIComponent (toStringJS
                        ((resolveEntryParam c entry lang n).getD .undefined))).data)))))
        ∧ (resolveEntryParam c entry lang "lang" = some (.str lang))
        ∧ (resolveEntryParam c entry lang "entry_id"
            = some (truthyOrElse (entryIdVal entry) (.str "")))
        ∧ (∀ field data, c.entry_url_field = some field → field ≠ "" →
            entry.data = some data →
            resolveEntryParam c entry lang "slug"
              = some (match getKey data field with
                  | .obj fs => mlChain (.obj fs) lang
                  | fv => truthyOrElse fv (truthyOrElse (entryIdVal entry) (.str ""))))
        ∧ (c.entry_url_field = none ∨ entry.data = none →
            resolveEntryParam c entry lang "slug"
              = some (truthyOrElse (entryIdVal entry) (.str "")))
        ∧ (∀ param, param ≠ "lang" → param ≠ "slug" → param ≠ "entry_id" →
            resolveEntryParam c entry lang param
              = (match entry.data with
                 | some data =>
                   if truthyJS (getKey data param) then
                     some (match getKey data param with
                       | .obj fs => mlChain (.obj fs) lang
                       | v => .str (toStringJS v))
                   else none
                 | none => none))) := by
  constructor
  · intro hfind
    simp [buildEntryUrl, hld, hfind]
  · intro c hfind
    have hbase : ∀ pat, c.entry_url_pattern = some pat → pat ≠ "" →
        buildEntryUrl st cc entry lang
          = entrySubstLoop (extractParams pat) pat (resolveEntryParam c entry lang) := by
      intro pat hpat hpne
      simp [buildEntryUrl, hld, hfind, hpat, hpne]
    refine ⟨?_, ?_, rfl, rfl, ?_, ?_, ?_⟩
    · intro hpat
      simp [buildEntryUrl, hld, hfind, hpat]
    · intro pat hpat hpne
      constructor
      · rw [hbase pat hpat hpne]
        constructor
        · intro hnone
          by_contra hnex
          push_neg at hnex
          have hall : ∀ n ∈ extractParams pat,
              paramTruthyB (resolveEntryParam c entry lang n) = true := by
            intro n hn
            have := hnex n hn
            revert this
            cases paramTruthyB (resolveEntryParam c entry lang n) <;> simp
          rw [entrySubstLoop_ok (extractParams pat) pat _ hall] at hnone
          exact absurd hnone (by simp)
        · intro hex
          exact entrySubstLoop_fail (extractParams pat) pat _ hex
      · intro hnb hall
        rw [hbase pat hpat hpne,
          entrySubstLoop_ok (extractParams pat) pat _ hall]
        congr 2
        have hrender : stringOfToks (scanToks pat) = pat.data := stringOfToks_scanToks pat
        calc substFold (extractParams pat) pat.data
              (fun n => (encodeURIComponent (toStringJS
                ((resolveEntryParam c entry lang n).getD .undefined))).data)
            = substFold (paramNames (scanToks pat)) (stringOfToks (scanToks pat))
                (fun n => (encodeURIComponent (toStringJS
                  ((resolveEntryParam c entry lang n).getD .undefined))).data) := by
              rw [hrender]; rfl
          _ = specSubst (scanToks pat)
                (fun n => (encodeURIComponent (toStringJS
                  ((resolveEntryParam c entry lang n).getD .undefined))).data) := by
              refine substFold_eq_specSubst (scanToks pat) _ hnb ?_
              intro n _ ch hch
              exact encodeURIComponent_no_brace _ ch hch
    · intro field data hfield hfne hdata
      simp only [resolveEntryParam, if_neg (by decide : ¬ ("slug" : String) = "lang"),
        if_pos rfl, hfield, hdata, if_neg hfne]
      rw [if_pos trivial]
      cases getKey data field <;> rfl
    · intro hor
      rcases hor with hor | hor <;>
        simp [resolveEntryParam, hor]
    · intro param hl hs he
      simp only [resolveEntryParam, if_neg hl, if_neg hs, if_neg he]
      cases entry.data with
      | none => rfl
      | some data =>
        simp only []
        by_cases htr : truthyJS (getKey data param) = true
        · rw [if_pos htr, if_pos htr]
          cases getKey data param <;> rfl
        · rw [if_neg htr, if_neg htr]

/-
  The placeholder resolution exactly as claim C7 words it, for comparison
  with `resolveEntryParam`: `slug` resolves only through the collection's
  configured `entry_url_field` on the entry's data (no fallback to the
  entry identifier), and an unresolvable placeholder yields null.
-/

def resolveEntryParamClaim (collection : RouteCollectionItem) (entry : EntryArg)
    (language : String) (param : String) : Option JSVal :=
  if param = "lang" then some (.str language)
  else if param = "slug" then
    match collection.entry_url_field, entry.data with
    | some field, some data =>
      if field = "" then none
      else
        match getKey data field with
        | .obj fs => some (mlChain (.obj fs) language)
        | .undefined => none
        | .null => none
        | fv => some fv
    | _, _ => none
  else if param = "entry_id" then
    match entry.entry_id with
    | some s => some (.str s)
    | none => none
  else
    match entry.data with
    | some data =>
      let v := getKey data param
      if truthyJS v then
        match v with
        | .obj fs => some (mlChain (.obj fs) language)
        | _ => some (.str (toStringJS v))
      else none
    | none => none

def buildEntryUrlClaim (st : RoutesState) (collectionCode : String) (entry : EntryArg)
    (language : String) : Option String :=
  if st.isLoaded then
    match st.collections.find? (fun c => c.code == collectionCode) with
    | none => none
    | some c =>
      match c.entry_url_pattern with
      | none => none
      | some pat =>
        if pat = "" then none
        else entrySubstLoop (extractParams pat) pat (resolveEntryParamClaim c entry language)
  else none

/-- A loaded table with one collection using pattern `/c/{slug}` and
entry url field `title`. -/
def stCollections : RoutesState :=
  ⟨none, [], [⟨"col", some "/c/{slug}", some "title"⟩], true, false, none⟩

/-- An entry with an identifier but no data fields. -/
def entryNoTitle : EntryArg := ⟨some "e1", some []⟩

/-- Counterexample to claim C7 as stated: the entry has no `title` field,
so the claim's resolution (`buildEntryUrlClaim`) cannot resolve `slug` and
returns null — but the code falls back to the entry identifier and
produces `/c/e1`. -/
theorem c7_counterexample :
    buildEntryUrl stCollections "col" entryNoTitle "en" = some "/c/e1"
    ∧ buildEntryUrlClaim stCollections "col" entryNoTitle "en" = none :=
  ⟨rfl, rfl⟩

/-- An entry whose `title` field is a language-keyed mapping. -/
def entryTitled : EntryArg :=
  ⟨some "e1", some [("title", .obj [("en", .str "hello"), ("pl", .str "czesc")])]⟩

/-- Closed witness for `c7_buildEntryUrl`: the multilingual `title` field
resolves at the exact language key and is substituted into the pattern. -/
theorem c7_buildEntryUrl_witness :
    buildEntryUrl stCollections "col" entryTitled "en" = some "/c/hello" := by
  have h := (c7_buildEntryUrl stCollections "col" entryTitled "en" rfl).2
    ⟨"col", some "/c/{slug}", some "title"⟩ rfl
  have hok := (h.2.1 "/c/{slug}" rfl (by decide)).2 (by decide) ?_
  · exact hok.trans (by rfl)
  · intro n hn
    have hn' : n ∈ ["slug"] := hn
    rw [List.mem_singleton] at hn'
    subst hn'
    rfl

end Lcms
